import Mathlib

/- Shallow embedding of the validation-and-reconciliation core of the
customer-commerce-analytics ETL pipeline (src/etl/etl_pipeline.py and
src/etl/utils/helpers.py).

Modelling conventions: strings are lists of natural-number code points;
pandas nullable values are Option; money amounts are rationals; integer
measures are Int; row frames are Lean lists; fatal errors are Except.error
with a payload structure in place of the Python exception message. -/

namespace ETL

/-! ## Character and string model -/

/-- Strings as lists of code points. -/
abbrev Str := List Nat

/-- Whitespace characters matched by the regex class backslash-s and by
str.strip, restricted to the ASCII range. -/
def isWS (c : Nat) : Bool :=
  c == 32 || c == 9 || c == 10 || c == 11 || c == 12 || c == 13

/-- ASCII decimal digit test, the regex class [0-9]. -/
def isDigitC (c : Nat) : Bool := 48 ≤ c && c ≤ 57

/-- ASCII alphabetic test, deciding which characters str.title cases. -/
def isAlphaC (c : Nat) : Bool := (65 ≤ c && c ≤ 90) || (97 ≤ c && c ≤ 122)

/-- Uppercase one ASCII character. -/
def upChar (c : Nat) : Nat := if 97 ≤ c ∧ c ≤ 122 then c - 32 else c

/-- Lowercase one ASCII character. -/
def lowChar (c : Nat) : Nat := if 65 ≤ c ∧ c ≤ 90 then c + 32 else c

/-- The case transformation str.title applies to one character, given
whether the preceding character was alphabetic. -/
def caseTr (prevAlpha : Bool) (c : Nat) : Nat :=
  if isAlphaC c then (if prevAlpha then lowChar c else upChar c) else c

/-- Recursion for titleCase, threading whether the previous character was
alphabetic. -/
def titleAux (prevAlpha : Bool) : Str → Str
  | [] => []
  | c :: cs => caseTr prevAlpha c :: titleAux (isAlphaC c) cs

/-- pandas Series.str.title: uppercase every alphabetic character that
follows a non-alphabetic position, lowercase every other alphabetic
character. -/
def titleCase (s : Str) : Str := titleAux false s

/-- Recursion for collapseWS, threading whether the previous character was
whitespace: the first character of each whitespace run becomes one space
(code 32), the rest of the run is deleted. -/
def collapseAux (prevWS : Bool) : Str → Str
  | [] => []
  | c :: cs =>
      if isWS c then
        (if prevWS then collapseAux true cs else 32 :: collapseAux true cs)
      else c :: collapseAux false cs

/-- The regex replacement of every maximal whitespace run by a single
space, as in Series.str.replace with pattern backslash-s-plus. -/
def collapseWS (s : Str) : Str := collapseAux false s

/-- Drop leading whitespace. -/
def trimLeft (s : Str) : Str := s.dropWhile (fun c => isWS c)

/-- Series.str.strip: drop leading and trailing whitespace. -/
def stripWS (s : Str) : Str :=
  ((trimLeft s).reverse.dropWhile (fun c => isWS c)).reverse

/-- The canonicalization applied to an enabled attribute (helpers.py lines
92 to 97): strip, collapse internal whitespace runs to single spaces, then
title-case. -/
def canon (s : Str) : Str := titleCase (collapseWS (stripWS s))

/-! ## Identifier cleaning (etl_pipeline.py lines 49 to 55) -/

/-- Parse an all-digit string as a number, as pd.to_numeric does on the
digits that survive stripping. -/
def parseDigits (ds : Str) : Nat := ds.foldl (fun acc c => 10 * acc + (c - 48)) 0

/-- Cleaning of one raw identifier string: every non-digit character is
stripped by the regex replacement, an empty remainder is replaced by pd.NA,
and a non-empty remainder parses as a number. -/
def cleanId (s : Str) : Option Nat :=
  let ds := s.filter (fun c => isDigitC c)
  if ds.isEmpty then none else some (parseDigits ds)

/-! ## Date dimension (helpers.py lines 56 to 77)

Dates are day numbers counted from 1970-01-01, which was a Thursday. The
year, quarter, month and day projections of a date row are omitted from the
model: no verified property mentions them. -/

/-- pandas Timestamp.weekday for a day number: Monday is 0, Sunday is 6. -/
def weekday (d : Nat) : Nat := (d + 3) % 7

/-- One row of the date dimension. -/
structure DateRow where
  full_date : Nat
  is_weekend : Bool
deriving DecidableEq

/-- The row built for one calendar day: dates.weekday >= 5 marks Saturday
and Sunday. -/
def mkDateRow (d : Nat) : DateRow := { full_date := d, is_weekend := weekday d ≥ 5 }

/-- pd.date_range from lo to hi inclusive with daily frequency, as day
numbers; empty when hi < lo. -/
def dateRange (lo hi : Nat) : List Nat := (List.range (hi + 1 - lo)).map (fun i => lo + i)

/-- Minimum of a non-empty list of day numbers (Series.min). -/
def listMin : List Nat → Nat
  | [] => 0
  | x :: xs => xs.foldl Nat.min x

/-- Maximum of a non-empty list of day numbers (Series.max). -/
def listMax : List Nat → Nat
  | [] => 0
  | x :: xs => xs.foldl Nat.max x

/-- The error raised when the date column holds no valid date. -/
inductive DateErr where
  | noValidDates
deriving DecidableEq

/-- build_date_dimension: drop absent dates with dropna, fail when none
remain, otherwise emit one row per day from the minimum to the maximum
observed date. -/
def buildDateDimension (col : List (Option Nat)) : Except DateErr (List DateRow) :=
  let valid := col.filterMap id
  if valid.isEmpty then Except.error DateErr.noValidDates
  else Except.ok ((dateRange (listMin valid) (listMax valid)).map mkDateRow)

/-- The ISO weekday of a day number: Monday is 1, Sunday is 7. Stated from
the specification wording, for comparison with is_weekend. -/
def isoWeekday (d : Nat) : Nat := weekday d + 1

/-! ## Item dimension (helpers.py lines 85 to 120)

One record stands for the projected item columns of one raw row. The
natural-key column item_code is modelled as non-absent: pandas groupby
silently drops groups with an absent key, and no claim exercises that
case. The item_id column arrives already coerced to a nullable integer, so
the pd.to_numeric re-coercion is the identity here. -/

/-- The projected item columns of one row, also the shape of an output
dimension row. -/
structure ItemRec where
  item_code : Str
  item_id : Option Nat
  item_name : Option Str
  category : Option Str
  version : Option Str
deriving DecidableEq

/-- Strict lexicographic order on code-point strings, the order pandas uses
to sort string values and group keys. -/
def lexLt : Str → Str → Bool
  | [], [] => false
  | [], _ :: _ => true
  | _ :: _, [] => false
  | a :: as, b :: bs => if a < b then true else if b < a then false else lexLt as bs

/-- The canonicalize-category step (helpers.py lines 91 to 97): when the
toggle is enabled, canon is applied to every category value; absent values
stay absent, as string methods propagate NaN. -/
def canonCategoryCol (enabled : Bool) (rows : List ItemRec) : List ItemRec :=
  if enabled then rows.map (fun r => { r with category := r.category.map canon }) else rows

/-- The distinct group keys in the order groupby with default sorting emits
them: ascending by the lexicographic string order. -/
def groupKeys (rows : List ItemRec) : List Str :=
  List.insertionSort (fun a b => lexLt b a = false) ((rows.map (fun r => r.item_code)).dedup)

/-- Series.mode followed by .iloc[0], with the fallback of the source to
series.iloc[0] when the mode is empty: among the non-absent values of
maximal multiplicity, the smallest in sort order, because Series.mode
returns the tied values sorted ascending. -/
def modeAgg (vals : List (Option Str)) : Option Str :=
  let present := vals.filterMap id
  let uniq := present.dedup
  let maxCnt := (uniq.map (fun v => present.count v)).foldl Nat.max 0
  match uniq.filter (fun v => present.count v == maxCnt) with
  | [] => (vals.head?).getD none
  | t :: ts => some (ts.foldl (fun m v => if lexLt v m then v else m) t)

/-- The groupby aggregation named first: the first non-absent value of the
group, absent when every value is absent. -/
def firstAgg (vals : List (Option Nat)) : Option Nat := (vals.filterMap id).head?

/-- The aggregated row of one item_code group under the mode strategy. -/
def modeGroupRow (rows : List ItemRec) (k : Str) : ItemRec :=
  let grp := rows.filter (fun r => r.item_code == k)
  { item_code := k
    item_id := firstAgg (grp.map (fun r => r.item_id))
    item_name := modeAgg (grp.map (fun r => r.item_name))
    category := modeAgg (grp.map (fun r => r.category))
    version := modeAgg (grp.map (fun r => r.version)) }

/-- load_dimension_table for the item dimension under the mode strategy
(helpers.py lines 100 to 117): canonicalize the category column, group by
item_code, aggregate, then drop the groups whose resolved item_id is
absent, returning the surviving rows and the dropped-group count. -/
def loadDimItemMode (canonCat : Bool) (rows : List ItemRec) : List ItemRec × Nat :=
  let df := canonCategoryCol canonCat rows
  let grouped := (groupKeys df).map (modeGroupRow df)
  let kept := grouped.filter (fun r => !r.item_id.isNone)
  (kept, grouped.length - kept.length)

/-- Recursion for dropDuplicates, carrying the rows already seen. -/
def dropDupAux [DecidableEq α] (seen : List α) : List α → List α
  | [] => []
  | x :: xs => if x ∈ seen then dropDupAux seen xs else x :: dropDupAux (x :: seen) xs

/-- pandas drop_duplicates: keep the first occurrence of each exact row. -/
def dropDuplicates [DecidableEq α] (l : List α) : List α := dropDupAux [] l

/-- load_dimension_table for the item dimension under the first-occurrence
strategy (helpers.py line 119): canonicalize the category column, drop rows
with an absent item_id, then drop exact duplicate rows. -/
def loadDimItemFirst (canonCat : Bool) (rows : List ItemRec) : List ItemRec :=
  let df := canonCategoryCol canonCat rows
  dropDuplicates (df.filter (fun r => !r.item_id.isNone))

/-- Modelled from the claim wording, for comparison only: the statistical
mode with ties broken by the first-encountered value in original row order,
instead of the sorted tie-break the source inherits from Series.mode. -/
def modeAggClaimed (vals : List (Option Str)) : Option Str :=
  let present := vals.filterMap id
  let uniq := present.dedup
  let maxCnt := (uniq.map (fun v => present.count v)).foldl Nat.max 0
  match present.find? (fun v => present.count v == maxCnt) with
  | some v => some v
  | none => (vals.head?).getD none

/-- Modelled from the claim wording, for comparison only: the aggregated
row of one group with item_id taken from the first row of the group, not
from the first row holding a non-absent item_id. -/
def claimedGroupRow (rows : List ItemRec) (k : Str) : ItemRec :=
  let grp := rows.filter (fun r => r.item_code == k)
  { item_code := k
    item_id := (grp.head?).bind (fun r => r.item_id)
    item_name := modeAggClaimed (grp.map (fun r => r.item_name))
    category := modeAggClaimed (grp.map (fun r => r.category))
    version := modeAggClaimed (grp.map (fun r => r.version)) }

/-- Modelled from the claim wording, for comparison only: the mode-strategy
item loader as the claim describes it. -/
def loadDimItemModeClaimed (canonCat : Bool) (rows : List ItemRec) : List ItemRec × Nat :=
  let df := canonCategoryCol canonCat rows
  let grouped := (groupKeys df).map (claimedGroupRow df)
  let kept := grouped.filter (fun r => !r.item_id.isNone)
  (kept, grouped.length - kept.length)

/-- A concrete item group with two raw rows tied one-to-one on item_name:
code 65, consistent item_id, names [98] and [97] in that row order. -/
def exTie : List ItemRec :=
  [{ item_code := [65], item_id := some 1, item_name := some [98], category := none, version := none },
   { item_code := [65], item_id := some 1, item_name := some [97], category := none, version := none }]

/-- A concrete item group whose first row has an absent item_id and whose
second row resolves it. -/
def exNull : List ItemRec :=
  [{ item_code := [65], item_id := none, item_name := some [97], category := none, version := none },
   { item_code := [65], item_id := some 5, item_name := some [97], category := none, version := none }]

/-! ## Validation (helpers.py lines 180 to 224)

One record carries the columns of a fact candidate row that the core
touches. Measures are modelled as exact rationals and integers. -/

/-- The raw columns a fact candidate carries into validation and fact
resolution. -/
structure Rec where
  transaction_id : Option Nat
  full_date : Option Nat
  item_code : Str
  buyer_id : Option Nat
  total_revenue : ℚ
  price_reductions : ℚ
  refunds : ℚ
  final_revenue : ℚ
  sales_tax : ℚ
  overall_revenue : ℚ
  final_quantity : Int
  purchased_item_count : Int
  refunded_item_count : Int
deriving DecidableEq

/-- A working row of the validation frame: the original row index, the
record, and the transient check columns, absent until their check runs. -/
structure WRow where
  idx : Nat
  row : Rec
  chk_rev1 : Option ℚ
  chk_rev2 : Option ℚ
  chk_qty : Option Int
deriving DecidableEq

/-- The validation configuration surface the core reads: four check
toggles, the monetary tolerance, and the error-rate ceiling. -/
structure ValConfig where
  revenue_balance : Bool
  overall_balance : Bool
  quantity_balance : Bool
  refunded_nonpositive : Bool
  tolerance : ℚ
  max_error_rate : ℚ
deriving DecidableEq

/-- The initial validation frame: the input rows under their positional
index, with every transient check column absent. -/
def initFrame (rows : List Rec) : List WRow :=
  rows.enum.map (fun p =>
    { idx := p.fst, row := p.snd, chk_rev1 := none, chk_rev2 := none, chk_qty := none })

/-- The revenue_balance check: assign chk_rev1 on every current row, keep
the rows within tolerance of it. -/
def stepRevenue (tol : ℚ) (df : List WRow) : List WRow :=
  (df.map (fun w =>
    { w with chk_rev1 := some (w.row.total_revenue + w.row.price_reductions + w.row.refunds) })).filter
    (fun w => decide (|w.row.final_revenue - (w.chk_rev1.getD 0)| ≤ tol))

/-- The overall_balance check: assign chk_rev2 on every current row, keep
the rows within tolerance of it. -/
def stepOverall (tol : ℚ) (df : List WRow) : List WRow :=
  (df.map (fun w =>
    { w with chk_rev2 := some (w.row.final_revenue + w.row.sales_tax) })).filter
    (fun w => decide (|w.row.overall_revenue - (w.chk_rev2.getD 0)| ≤ tol))

/-- The quantity_balance check: assign chk_qty on every current row, keep
the rows equal to it exactly. -/
def stepQuantity (df : List WRow) : List WRow :=
  (df.map (fun w =>
    { w with chk_qty := some (w.row.purchased_item_count + w.row.refunded_item_count) })).filter
    (fun w => w.row.final_quantity == w.chk_qty.getD 0)

/-- The refunded_nonpositive check: keep rows whose refunded count is not
positive. -/
def stepRefunded (df : List WRow) : List WRow :=
  df.filter (fun w => decide (w.row.refunded_item_count ≤ 0))

/-- The sequential filter of the four toggleable checks, in source order: a
disabled check passes the frame through unchanged. -/
def runChecks (cfg : ValConfig) (df : List WRow) : List WRow :=
  let d1 := if cfg.revenue_balance then stepRevenue cfg.tolerance df else df
  let d2 := if cfg.overall_balance then stepOverall cfg.tolerance d1 else d1
  let d3 := if cfg.quantity_balance then stepQuantity d2 else d2
  if cfg.refunded_nonpositive then stepRefunded d3 else d3

/-- The drop of every transient check column before returning accepted
rows. -/
def stripChk (w : WRow) : WRow := { w with chk_rev1 := none, chk_rev2 := none, chk_qty := none }

/-- The payload of the validation-threshold error: the observed and the
allowed drop rate. -/
structure ThresholdErr where
  observed : ℚ
  allowed : ℚ
deriving DecidableEq

/-- The number of rows the enabled checks drop from a dataset. -/
def droppedCount (cfg : ValConfig) (rows : List Rec) : Nat :=
  rows.length - (runChecks cfg (initFrame rows)).length

/-- The observed drop rate: dropped rows over max(total input rows, 1),
the maximum taken on integers as in the source. -/
def dropRate (cfg : ValConfig) (rows : List Rec) : ℚ :=
  (droppedCount cfg rows : ℚ) / ((max rows.length 1 : Nat) : ℚ)

/-- apply_validations: run the enabled checks sequentially, fail when the
drop rate strictly exceeds the ceiling, otherwise return the accepted rows
with check columns stripped and the original rows whose index no longer
appears among the accepted. -/
def applyValidations (cfg : ValConfig) (rows : List Rec) : Except ThresholdErr (List WRow × List WRow) :=
  let dfOriginal := initFrame rows
  let df := runChecks cfg dfOriginal
  if dropRate cfg rows > cfg.max_error_rate then
    Except.error { observed := dropRate cfg rows, allowed := cfg.max_error_rate }
  else
    let cleaned := df.map stripChk
    Except.ok (cleaned, dfOriginal.filter (fun o => !(cleaned.map (fun w => w.idx)).contains o.idx))

/-- Row-level predicate of the revenue_balance check. -/
def passRevenue (tol : ℚ) (r : Rec) : Bool :=
  decide (|r.final_revenue - (r.total_revenue + r.price_reductions + r.refunds)| ≤ tol)

/-- Row-level predicate of the overall_balance check. -/
def passOverall (tol : ℚ) (r : Rec) : Bool :=
  decide (|r.overall_revenue - (r.final_revenue + r.sales_tax)| ≤ tol)

/-- Row-level predicate of the quantity_balance check. -/
def passQuantity (r : Rec) : Bool :=
  r.final_quantity == r.purchased_item_count + r.refunded_item_count

/-- Row-level predicate of the refunded_nonpositive check. -/
def passRefunded (r : Rec) : Bool := decide (r.refunded_item_count ≤ 0)

/-- The conjunction of the enabled row-level checks. -/
def keepAll (cfg : ValConfig) (r : Rec) : Bool :=
  (!cfg.revenue_balance || passRevenue cfg.tolerance r) &&
  (!cfg.overall_balance || passOverall cfg.tolerance r) &&
  (!cfg.quantity_balance || passQuantity r) &&
  (!cfg.refunded_nonpositive || passRefunded r)

/-- Pointwise comparison of check toggles: every check enabled in the first
configuration is enabled in the second. -/
def ChecksLE (c1 c2 : ValConfig) : Prop :=
  (c1.revenue_balance = true → c2.revenue_balance = true) ∧
  (c1.overall_balance = true → c2.overall_balance = true) ∧
  (c1.quantity_balance = true → c2.quantity_balance = true) ∧
  (c1.refunded_nonpositive = true → c2.refunded_nonpositive = true)

/-! ## Reconciler (etl_pipeline.py lines 136 to 176) -/

/-- The incremental reconciliation of one dimension: the left merge of the
candidate rows against the persisted natural keys with an indicator column,
keeping the left-only rows. The natural keys used by run_etl are full_date
for dates, item_code for items and buyer_id for buyers. -/
def reconcile {α κ : Type} [DecidableEq κ] (key : α → κ) (cands : List α) (persisted : List κ) : List α :=
  cands.filter (fun c => decide (key c ∉ persisted))

/-! ## Fact resolver (helpers.py lines 137 to 178) -/

/-- The left merge of one natural key against a dimension relation read
from the warehouse, given as pairs of natural key and surrogate key: the
surrogate of the first matching row, absent when no row matches. -/
def dimLookup {κ : Type} [DecidableEq κ] (table : List (κ × Nat)) (k : κ) : Option Nat :=
  ((table.filter (fun p => decide (p.fst = k))).head?).map (fun p => p.snd)

/-- A nullable natural key merged against a dimension relation: an absent
key matches nothing, as NaN never equals a key in a pandas merge. -/
def dimLookupOpt (table : List (Nat × Nat)) (k : Option Nat) : Option Nat :=
  match k with
  | none => none
  | some v => dimLookup table v

/-- One candidate row after the three surrogate-key merges. -/
structure JoinedRow where
  row : Rec
  date_key : Option Nat
  item_key : Option Nat
  buyer_key : Option Nat
deriving DecidableEq

/-- One persisted fact row: the three surrogate keys, the transaction
identifier, and the nine measures, all non-absent. -/
structure FactRow where
  date_key : Nat
  item_key : Nat
  buyer_key : Nat
  transaction_id : Nat
  final_quantity : Int
  total_revenue : ℚ
  price_reductions : ℚ
  refunds : ℚ
  final_revenue : ℚ
  sales_tax : ℚ
  overall_revenue : ℚ
  refunded_item_count : Int
  purchased_item_count : Int
deriving DecidableEq

/-- The fact row built from a candidate whose keys all resolved. -/
def mkFactRow (r : Rec) (dk ik bk tx : Nat) : FactRow :=
  { date_key := dk, item_key := ik, buyer_key := bk, transaction_id := tx
    final_quantity := r.final_quantity
    total_revenue := r.total_revenue
    price_reductions := r.price_reductions
    refunds := r.refunds
    final_revenue := r.final_revenue
    sales_tax := r.sales_tax
    overall_revenue := r.overall_revenue
    refunded_item_count := r.refunded_item_count
    purchased_item_count := r.purchased_item_count }

/-- The merge phase of load_fact_sales: attach the three surrogate keys to
every candidate. -/
def joinKeys (dimDate : List (Nat × Nat)) (dimItem : List (Str × Nat))
    (dimBuyer : List (Nat × Nat)) (rows : List Rec) : List JoinedRow :=
  rows.map (fun r =>
    { row := r
      date_key := dimLookupOpt dimDate r.full_date
      item_key := dimLookup dimItem r.item_code
      buyer_key := dimLookupOpt dimBuyer r.buyer_id })

/-- load_fact_sales up to the database write: join the surrogate keys,
count the rows with a missing foreign key for the warning, and keep exactly
the rows whose three keys and transaction identifier are all present. The
function is total: no count of missing-key rows is fatal. -/
def loadFactSales (dimDate : List (Nat × Nat)) (dimItem : List (Str × Nat))
    (dimBuyer : List (Nat × Nat)) (rows : List Rec) : List FactRow × Nat :=
  let joined := joinKeys dimDate dimItem dimBuyer rows
  let missing := (joined.filter (fun j =>
    j.date_key.isNone || j.item_key.isNone || j.buyer_key.isNone)).length
  let fact := joined.filterMap (fun j =>
    match j.date_key, j.item_key, j.buyer_key, j.row.transaction_id with
    | some dk, some ik, some bk, some tx => some (mkFactRow j.row dk ik bk tx)
    | _, _, _, _ => none)
  (fact, missing)

/-! # Helper lemmas -/

theorem foldlMin_le_init (xs : List Nat) (a : Nat) : xs.foldl Nat.min a ≤ a := by
  induction xs generalizing a with
  | nil => exact le_refl a
  | cons x xs ih => exact le_trans (ih (Nat.min a x)) (Nat.min_le_left a x)

theorem foldlMin_le_of_mem (xs : List Nat) (a x : Nat) (hx : x ∈ xs) : xs.foldl Nat.min a ≤ x := by
  induction xs generalizing a with
  | nil => cases hx
  | cons y ys ih =>
      rcases List.mem_cons.mp hx with h | h
      · subst h
        exact le_trans (foldlMin_le_init ys (Nat.min a x)) (Nat.min_le_right a x)
      · exact ih (Nat.min a y) h

theorem le_foldlMax_init (xs : List Nat) (a : Nat) : a ≤ xs.foldl Nat.max a := by
  induction xs generalizing a with
  | nil => exact le_refl a
  | cons x xs ih => exact le_trans (Nat.le_max_left a x) (ih (Nat.max a x))

theorem le_foldlMax_of_mem (xs : List Nat) (a x : Nat) (hx : x ∈ xs) : x ≤ xs.foldl Nat.max a := by
  induction xs generalizing a with
  | nil => cases hx
  | cons y ys ih =>
      rcases List.mem_cons.mp hx with h | h
      · subst h
        exact le_trans (Nat.le_max_right a x) (le_foldlMax_init ys (Nat.max a x))
      · exact ih (Nat.max a y) h

theorem foldlMax_mem_cons (xs : List Nat) (a : Nat) : xs.foldl Nat.max a ∈ a :: xs := by
  induction xs generalizing a with
  | nil => exact List.mem_singleton.mpr rfl
  | cons x xs ih =>
      have h := ih (Nat.max a x)
      have hd : Nat.max a x = a ∨ Nat.max a x = x := by
        rcases Nat.le_total a x with h2 | h2
        · exact Or.inr (Nat.max_eq_right h2)
        · exact Or.inl (Nat.max_eq_left h2)
      simp only [List.foldl_cons]
      rcases List.mem_cons.mp h with h1 | h1
      · rcases hd with h2 | h2
        · rw [h1, h2]
          exact List.mem_cons_self a (x :: xs)
        · rw [h1, h2]
          exact List.mem_cons.mpr (Or.inr (List.mem_cons_self x xs))
      · exact List.mem_cons.mpr (Or.inr (List.mem_cons.mpr (Or.inr h1)))

theorem listMin_le_of_mem (l : List Nat) (x : Nat) (hx : x ∈ l) : listMin l ≤ x := by
  cases l with
  | nil => cases hx
  | cons y ys =>
      rcases List.mem_cons.mp hx with h | h
      · subst h
        exact foldlMin_le_init ys x
      · exact foldlMin_le_of_mem ys y x h

theorem le_listMax_of_mem (l : List Nat) (x : Nat) (hx : x ∈ l) : x ≤ listMax l := by
  cases l with
  | nil => cases hx
  | cons y ys =>
      rcases List.mem_cons.mp hx with h | h
      · subst h
        exact le_foldlMax_init ys x
      · exact le_foldlMax_of_mem ys y x h

/-! # Claim theorems -/

/-- C9: cleaning a raw identifier string yields an absent value exactly
when the string holds no digit (in particular it is then never zero), and
otherwise yields the number obtained by stripping every non-digit character
and parsing the remaining digits; the cleaning function is total, so no
input makes it fail. -/
theorem cleanId_strip_and_parse (s : Str) :
    (cleanId s = none ↔ ∀ c ∈ s, isDigitC c = false) ∧
    ((∃ c ∈ s, isDigitC c = true) →
      cleanId s = some (parseDigits (s.filter (fun c => isDigitC c)))) := by
  have hfil : (s.filter (fun c => isDigitC c) = []) ↔ ∀ c ∈ s, isDigitC c = false := by
    rw [List.filter_eq_nil]
    simp
  constructor
  · rw [← hfil]
    unfold cleanId
    by_cases h : s.filter (fun c => isDigitC c) = []
    · simp [h]
    · simp [h, List.isEmpty_iff]
  · rintro ⟨c, hc, hd⟩
    have hne : s.filter (fun c => isDigitC c) ≠ [] := by
      intro h
      have := (hfil.mp h) c hc
      rw [hd] at this
      cases this
    unfold cleanId
    simp [List.isEmpty_iff, hne]

/-- C2: the reconciliation step of run_etl keeps exactly the candidate rows
whose natural key (full_date, item_code or buyer_id) is absent from the
persisted key set, never touching a candidate whose key is already
persisted, and a second run against the warehouse state produced by the
first run (the persisted keys plus the keys of the first-run inserts)
inserts zero rows. -/
theorem reconcile_delta_and_idempotent {α κ : Type} [DecidableEq κ]
    (key : α → κ) (cands : List α) (persisted : List κ) :
    (∀ c, c ∈ reconcile key cands persisted ↔ (c ∈ cands ∧ key c ∉ persisted)) ∧
    reconcile key cands (persisted ++ (reconcile key cands persisted).map key) = [] := by
  constructor
  · intro c
    simp [reconcile, List.mem_filter]
  · rw [reconcile, List.filter_eq_nil]
    intro c hc
    simp only [List.mem_append, decide_eq_true_eq, not_not]
    by_cases h : key c ∈ persisted
    · exact Or.inl h
    · refine Or.inr (List.mem_map_of_mem key ?_)
      simp [reconcile, List.mem_filter, hc, h]

/-- C6: on a date column with at least one present value, the date
dimension has exactly max minus min plus one rows, one per calendar day
between the minimum and maximum observed dates inclusive with no gap,
full_date is unique across the rows, and is_weekend holds exactly when the
ISO weekday is 6 or 7 (Saturday or Sunday); on an all-absent column the
builder fails with the no-valid-dates error and returns no rows at all. -/
theorem buildDateDimension_spec (col : List (Option Nat)) :
    (buildDateDimension col = Except.error DateErr.noValidDates ↔ ∀ x ∈ col, x = none) ∧
    (∀ rows, buildDateDimension col = Except.ok rows →
      rows.length = listMax (col.filterMap id) - listMin (col.filterMap id) + 1 ∧
      (rows.map (fun r => r.full_date)).Nodup ∧
      (∀ d, d ∈ rows.map (fun r => r.full_date) ↔
        (listMin (col.filterMap id) ≤ d ∧ d ≤ listMax (col.filterMap id))) ∧
      (∀ r ∈ rows, (r.is_weekend = true ↔
        (isoWeekday r.full_date = 6 ∨ isoWeekday r.full_date = 7)))) := by
  have hiff : (col.filterMap id = []) ↔ ∀ x ∈ col, x = none := by
    rw [List.filterMap_eq_nil]
    simp
  constructor
  · constructor
    · intro h
      unfold buildDateDimension at h
      by_cases he : (col.filterMap id).isEmpty
      · exact hiff.mp (List.isEmpty_iff.mp he)
      · rw [if_neg he] at h
        cases h
    · intro h
      unfold buildDateDimension
      rw [if_pos (List.isEmpty_iff.mpr (hiff.mpr h))]
  · intro rows hrows
    unfold buildDateDimension at hrows
    by_cases he : (col.filterMap id).isEmpty
    · rw [if_pos he] at hrows
      cases hrows
    · rw [if_neg he] at hrows
      rw [Except.ok.injEq] at hrows
      have hne : col.filterMap id ≠ [] := by
        intro h
        exact he (List.isEmpty_iff.mpr h)
      obtain ⟨x, hx⟩ := List.exists_mem_of_ne_nil _ hne
      have hle : listMin (col.filterMap id) ≤ listMax (col.filterMap id) :=
        le_trans (listMin_le_of_mem _ x hx) (le_listMax_of_mem _ x hx)
      subst hrows
      refine ⟨?_, ?_, ?_, ?_⟩
      · simp only [List.length_map, dateRange, List.length_range]
        omega
      · rw [List.map_map]
        have hcomp : ((fun r => r.full_date) ∘ mkDateRow) = id := rfl
        rw [hcomp, List.map_id]
        refine List.Nodup.map ?_ (List.nodup_range _)
        exact fun i j hij => by omega
      · intro d
        rw [List.map_map]
        have hcomp : ((fun r => r.full_date) ∘ mkDateRow) = id := rfl
        rw [hcomp, List.map_id]
        simp only [dateRange, List.mem_map, List.mem_range]
        constructor
        · rintro ⟨i, hi, rfl⟩
          omega
        · rintro ⟨h1, h2⟩
          exact ⟨d - listMin (col.filterMap id), by omega, by omega⟩
      · intro r hr
        rcases List.mem_map.mp hr with ⟨d, _, rfl⟩
        have hlt : (d + 3) % 7 < 7 := Nat.mod_lt _ (by omega)
        simp only [mkDateRow, isoWeekday, weekday, decide_eq_true_eq]
        constructor
        · intro h
          omega
        · intro h
          omega

/-- Witness for C6: the column with present days 2 and 4 builds the three
concrete rows for days 2 (Saturday), 3 (Sunday) and 4 (Monday), whose
full_date values are pairwise distinct. -/
theorem buildDateDimension_spec_witness :
    (([{ full_date := 2, is_weekend := true }, { full_date := 3, is_weekend := true },
       { full_date := 4, is_weekend := false }] : List DateRow).map (fun r => r.full_date)).Nodup :=
  ((buildDateDimension_spec [some 2, none, some 4]).2
    [{ full_date := 2, is_weekend := true }, { full_date := 3, is_weekend := true },
     { full_date := 4, is_weekend := false }] (by rfl)).2.1

/-- Witness for C9 at the concrete string of code points 65, 49, 66, 50:
the digits 49 and 50 survive and parse. -/
theorem cleanId_strip_and_parse_witness :
    cleanId [65, 49, 66, 50] =
      some (parseDigits (([65, 49, 66, 50] : Str).filter (fun c => isDigitC c))) :=
  (cleanId_strip_and_parse [65, 49, 66, 50]).2 ⟨49, by decide, by decide⟩

/-- C7: a validated fact candidate is emitted as a persisted fact row
exactly when its three surrogate keys (date by full_date, item by
item_code, buyer by buyer_id) resolve against the current dimension state
and its transaction identifier is present; the reported warning count is
the number of candidates with at least one unresolved foreign key; the
resolver is a total function with no ceiling on that count, so dropping is
never fatal. -/
theorem loadFactSales_resolution (dimDate dimBuyer : List (Nat × Nat))
    (dimItem : List (Str × Nat)) (rows : List Rec) :
    (∀ f, f ∈ (loadFactSales dimDate dimItem dimBuyer rows).1 ↔
      ∃ r ∈ rows, ∃ dk ik bk tx,
        dimLookupOpt dimDate r.full_date = some dk ∧
        dimLookup dimItem r.item_code = some ik ∧
        dimLookupOpt dimBuyer r.buyer_id = some bk ∧
        r.transaction_id = some tx ∧
        f = mkFactRow r dk ik bk tx) ∧
    (loadFactSales dimDate dimItem dimBuyer rows).2 =
      (rows.filter (fun r => (dimLookupOpt dimDate r.full_date).isNone ||
        (dimLookup dimItem r.item_code).isNone ||
        (dimLookupOpt dimBuyer r.buyer_id).isNone)).length := by
  have hfact : (loadFactSales dimDate dimItem dimBuyer rows).1 =
      rows.filterMap (fun r =>
        match dimLookupOpt dimDate r.full_date, dimLookup dimItem r.item_code,
            dimLookupOpt dimBuyer r.buyer_id, r.transaction_id with
        | some dk, some ik, some bk, some tx => some (mkFactRow r dk ik bk tx)
        | _, _, _, _ => none) := by
    simp only [loadFactSales, joinKeys]
    rw [List.filterMap_map]
    rfl
  constructor
  · intro f
    rw [hfact, List.mem_filterMap]
    constructor
    · rintro ⟨r, hr, hsome⟩
      refine ⟨r, hr, ?_⟩
      rcases h1 : dimLookupOpt dimDate r.full_date with _ | dk <;>
        rcases h2 : dimLookup dimItem r.item_code with _ | ik <;>
        rcases h3 : dimLookupOpt dimBuyer r.buyer_id with _ | bk <;>
        rcases h4 : r.transaction_id with _ | tx <;>
        rw [h1, h2, h3, h4] at hsome <;>
        first
          | (cases hsome
             exact ⟨dk, ik, bk, tx, rfl, rfl, rfl, rfl, rfl⟩)
          | cases hsome
    · rintro ⟨r, hr, dk, ik, bk, tx, h1, h2, h3, h4, rfl⟩
      exact ⟨r, hr, by rw [h1, h2, h3, h4]⟩
  · simp only [loadFactSales, joinKeys]
    rw [List.filter_map]
    rw [List.length_map]
    rfl

theorem initFrame_chk_none (rows : List Rec) (w : WRow) (hw : w ∈ initFrame rows) :
    w.chk_rev1 = none ∧ w.chk_rev2 = none ∧ w.chk_qty = none := by
  rcases List.mem_map.mp hw with ⟨p, _, rfl⟩
  exact ⟨rfl, rfl, rfl⟩

theorem stripChk_initFrame (rows : List Rec) : (initFrame rows).map stripChk = initFrame rows := by
  have h : ∀ w ∈ initFrame rows, stripChk w = id w := by
    intro w hw
    obtain ⟨h1, h2, h3⟩ := initFrame_chk_none rows w hw
    rcases w with ⟨i, r, a, b, c⟩
    simp only at h1 h2 h3
    rw [h1, h2, h3]
    rfl
  rw [List.map_congr_left h, List.map_id]

theorem stepRevenue_strip (tol : ℚ) (df : List WRow) :
    (stepRevenue tol df).map stripChk =
      (df.map stripChk).filter (fun w => passRevenue tol w.row) := by
  unfold stepRevenue
  rw [List.filter_map, List.map_map, List.filter_map]
  rfl

theorem stepOverall_strip (tol : ℚ) (df : List WRow) :
    (stepOverall tol df).map stripChk =
      (df.map stripChk).filter (fun w => passOverall tol w.row) := by
  unfold stepOverall
  rw [List.filter_map, List.map_map, List.filter_map]
  rfl

theorem stepQuantity_strip (df : List WRow) :
    (stepQuantity df).map stripChk =
      (df.map stripChk).filter (fun w => passQuantity w.row) := by
  unfold stepQuantity
  rw [List.filter_map, List.map_map, List.filter_map]
  rfl

theorem stepRefunded_strip (df : List WRow) :
    (stepRefunded df).map stripChk =
      (df.map stripChk).filter (fun w => passRefunded w.row) := by
  unfold stepRefunded
  rw [List.filter_map]
  rfl

theorem condRevenue_strip (c : Bool) (tol : ℚ) (df : List WRow) :
    ((if c = true then stepRevenue tol df else df).map stripChk) =
      (df.map stripChk).filter (fun w => !c || passRevenue tol w.row) := by
  cases c
  · rw [if_neg (by simp)]
    have hq : (fun (w : WRow) => !false || passRevenue tol w.row) = fun _ => true := by
      funext w
      rfl
    rw [hq, List.filter_true]
  · rw [if_pos rfl, stepRevenue_strip]
    rfl

theorem condOverall_strip (c : Bool) (tol : ℚ) (df : List WRow) :
    ((if c = true then stepOverall tol df else df).map stripChk) =
      (df.map stripChk).filter (fun w => !c || passOverall tol w.row) := by
  cases c
  · rw [if_neg (by simp)]
    have hq : (fun (w : WRow) => !false || passOverall tol w.row) = fun _ => true := by
      funext w
      rfl
    rw [hq, List.filter_true]
  · rw [if_pos rfl, stepOverall_strip]
    rfl

theorem condQuantity_strip (c : Bool) (df : List WRow) :
    ((if c = true then stepQuantity df else df).map stripChk) =
      (df.map stripChk).filter (fun w => !c || passQuantity w.row) := by
  cases c
  · rw [if_neg (by simp)]
    have hq : (fun (w : WRow) => !false || passQuantity w.row) = fun _ => true := by
      funext w
      rfl
    rw [hq, List.filter_true]
  · rw [if_pos rfl, stepQuantity_strip]
    rfl

theorem condRefunded_strip (c : Bool) (df : List WRow) :
    ((if c = true then stepRefunded df else df).map stripChk) =
      (df.map stripChk).filter (fun w => !c || passRefunded w.row) := by
  cases c
  · rw [if_neg (by simp)]
    have hq : (fun (w : WRow) => !false || passRefunded w.row) = fun _ => true := by
      funext w
      rfl
    rw [hq, List.filter_true]
  · rw [if_pos rfl, stepRefunded_strip]
    rfl

theorem runChecks_strip (cfg : ValConfig) (df : List WRow) :
    (runChecks cfg df).map stripChk = (df.map stripChk).filter (fun w => keepAll cfg w.row) := by
  simp only [runChecks]
  rw [condRefunded_strip, condQuantity_strip, condOverall_strip, condRevenue_strip,
    List.filter_filter, List.filter_filter, List.filter_filter]
  refine List.filter_congr ?_
  intro w _
  unfold keepAll
  cases hA : (!cfg.revenue_balance || passRevenue cfg.tolerance w.row) <;>
    cases hB : (!cfg.overall_balance || passOverall cfg.tolerance w.row) <;>
    cases hC : (!cfg.quantity_balance || passQuantity w.row) <;>
    cases hD : (!cfg.refunded_nonpositive || passRefunded w.row) <;>
    rfl

theorem runChecks_len (cfg : ValConfig) (rows : List Rec) :
    (runChecks cfg (initFrame rows)).length =
      ((initFrame rows).filter (fun w => keepAll cfg w.row)).length := by
  have h := runChecks_strip cfg (initFrame rows)
  rw [stripChk_initFrame] at h
  rw [← h, List.length_map]

theorem initFrame_length (rows : List Rec) : (initFrame rows).length = rows.length := by
  simp [initFrame]

/-- C1: apply_validations fails with the threshold error, carrying the
observed and the allowed rate, exactly when the drop rate dropped over
max(total rows, 1) strictly exceeds max_error_rate, in which case no rows
are returned; a drop rate exactly equal to the ceiling does not fail, and
an empty input has drop rate zero, so it never fails for the admissible
ceilings (max_error_rate at least zero). -/
theorem applyValidations_threshold (cfg : ValConfig) (rows : List Rec) :
    ((∀ e, applyValidations cfg rows = Except.error e ↔
        (dropRate cfg rows > cfg.max_error_rate ∧
         e = { observed := dropRate cfg rows, allowed := cfg.max_error_rate })) ∧
     ((∃ out, applyValidations cfg rows = Except.ok out) ↔
        ¬ dropRate cfg rows > cfg.max_error_rate)) ∧
    (dropRate cfg rows = cfg.max_error_rate → ∃ out, applyValidations cfg rows = Except.ok out) ∧
    (rows = [] → dropRate cfg rows = 0 ∧
      (0 ≤ cfg.max_error_rate → ∃ out, applyValidations cfg rows = Except.ok out)) := by
  have hzero : dropRate cfg [] = 0 := by
    unfold dropRate droppedCount
    simp
  by_cases h : dropRate cfg rows > cfg.max_error_rate
  · have happ : applyValidations cfg rows =
        Except.error { observed := dropRate cfg rows, allowed := cfg.max_error_rate } := by
      unfold applyValidations
      rw [if_pos h]
    refine ⟨⟨?_, ?_⟩, ?_, ?_⟩
    · intro e
      rw [happ]
      constructor
      · intro he
        exact ⟨h, (Except.error.inj he).symm⟩
      · rintro ⟨_, rfl⟩
        rfl
    · constructor
      · rintro ⟨out, hout⟩
        rw [happ] at hout
        cases hout
      · intro hn
        exact absurd h hn
    · intro heq
      rw [heq] at h
      exact absurd h (lt_irrefl _)
    · rintro rfl
      refine ⟨hzero, fun hm => ?_⟩
      rw [hzero] at h
      exact absurd hm (not_le.mpr h)
  · have happ : ∃ out, applyValidations cfg rows = Except.ok out := by
      unfold applyValidations
      rw [if_neg h]
      exact ⟨_, rfl⟩
    refine ⟨⟨?_, ?_⟩, ?_, ?_⟩
    · intro e
      constructor
      · intro he
        obtain ⟨out, hout⟩ := happ
        rw [he] at hout
        cases hout
      · rintro ⟨hgt, _⟩
        exact absurd hgt h
    · exact ⟨fun _ => h, fun _ => happ⟩
    · exact fun _ => happ
    · rintro rfl
      exact ⟨hzero, fun _ => happ⟩

/-- Witness for C1: with every check enabled, tolerance 1/100 and ceiling
1/2, the empty input validates without an error. -/
theorem applyValidations_threshold_witness :
    ∃ out, applyValidations
      { revenue_balance := true, overall_balance := true, quantity_balance := true,
        refunded_nonpositive := true, tolerance := 1/100, max_error_rate := 1/2 } [] =
      Except.ok out :=
  ((applyValidations_threshold
    { revenue_balance := true, overall_balance := true, quantity_balance := true,
      refunded_nonpositive := true, tolerance := 1/100, max_error_rate := 1/2 } []).2.2
    rfl).2 (by norm_num)

/-- C10: for a fixed dataset, enabling more checks (same tolerance) never
decreases the dropped count nor the drop rate, and with all four checks
disabled the dropped count is exactly zero. -/
theorem validationDrop_monotone (rows : List Rec) (c1 c2 : ValConfig)
    (htol : c1.tolerance = c2.tolerance) (hle : ChecksLE c1 c2) :
    (droppedCount c1 rows ≤ droppedCount c2 rows ∧
     dropRate c1 rows ≤ dropRate c2 rows) ∧
    (∀ cfg : ValConfig, cfg.revenue_balance = false → cfg.overall_balance = false →
      cfg.quantity_balance = false → cfg.refunded_nonpositive = false →
      droppedCount cfg rows = 0) := by
  have contra : ∀ (a b : Bool), (a = true → b = true) → b = false → a = false := by
    intro a b hab hb
    cases a
    · rfl
    · rw [hab rfl] at hb
      cases hb
  have hkeep : ∀ r : Rec, keepAll c2 r = true → keepAll c1 r = true := by
    intro r h
    unfold keepAll at h ⊢
    rw [htol]
    simp only [Bool.and_eq_true, Bool.or_eq_true, Bool.not_eq_true'] at h ⊢
    obtain ⟨⟨⟨hA, hB⟩, hC⟩, hD⟩ := h
    obtain ⟨l1, l2, l3, l4⟩ := hle
    refine ⟨⟨⟨?_, ?_⟩, ?_⟩, ?_⟩
    · rcases hA with hA | hA
      · exact Or.inl (contra _ _ l1 hA)
      · exact Or.inr hA
    · rcases hB with hB | hB
      · exact Or.inl (contra _ _ l2 hB)
      · exact Or.inr hB
    · rcases hC with hC | hC
      · exact Or.inl (contra _ _ l3 hC)
      · exact Or.inr hC
    · rcases hD with hD | hD
      · exact Or.inl (contra _ _ l4 hD)
      · exact Or.inr hD
  have hmono : droppedCount c1 rows ≤ droppedCount c2 rows := by
    unfold droppedCount
    rw [runChecks_len, runChecks_len]
    refine Nat.sub_le_sub_left ?_ rows.length
    rw [← List.countP_eq_length_filter, ← List.countP_eq_length_filter]
    exact List.countP_mono_left (fun w _ h => hkeep w.row h)
  refine ⟨⟨hmono, ?_⟩, ?_⟩
  · unfold dropRate
    have hden : (0 : ℚ) < ((max rows.length 1 : Nat) : ℚ) :=
      Nat.cast_pos.mpr (lt_of_lt_of_le Nat.one_pos (le_max_right _ 1))
    exact (div_le_div_right hden).mpr (Nat.cast_le.mpr hmono)
  · intro cfg h1 h2 h3 h4
    unfold droppedCount
    rw [runChecks_len]
    have hall : ∀ w ∈ initFrame rows, keepAll cfg w.row = (fun (_ : WRow) => true) w := by
      intro w _
      unfold keepAll
      rw [h1, h2, h3, h4]
      rfl
    rw [List.filter_congr hall, List.filter_true, initFrame_length, Nat.sub_self]

/-- Witness for C10: on a one-row dataset failing the refunded check,
moving from the all-disabled configuration to the one enabling
refunded_nonpositive does not decrease the dropped count. -/
theorem validationDrop_monotone_witness :
    droppedCount
      { revenue_balance := false, overall_balance := false, quantity_balance := false,
        refunded_nonpositive := false, tolerance := 0, max_error_rate := 1 }
      [{ transaction_id := none, full_date := none, item_code := [], buyer_id := none,
         total_revenue := 0, price_reductions := 0, refunds := 0, final_revenue := 0,
         sales_tax := 0, overall_revenue := 0, final_quantity := 0,
         purchased_item_count := 0, refunded_item_count := 1 }] ≤
    droppedCount
      { revenue_balance := false, overall_balance := false, quantity_balance := false,
        refunded_nonpositive := true, tolerance := 0, max_error_rate := 1 }
      [{ transaction_id := none, full_date := none, item_code := [], buyer_id := none,
         total_revenue := 0, price_reductions := 0, refunds := 0, final_revenue := 0,
         sales_tax := 0, overall_revenue := 0, final_quantity := 0,
         purchased_item_count := 0, refunded_item_count := 1 }] :=
  (validationDrop_monotone
    [{ transaction_id := none, full_date := none, item_code := [], buyer_id := none,
       total_revenue := 0, price_reductions := 0, refunds := 0, final_revenue := 0,
       sales_tax := 0, overall_revenue := 0, final_quantity := 0,
       purchased_item_count := 0, refunded_item_count := 1 }]
    { revenue_balance := false, overall_balance := false, quantity_balance := false,
      refunded_nonpositive := false, tolerance := 0, max_error_rate := 1 }
    { revenue_balance := false, overall_balance := false, quantity_balance := false,
      refunded_nonpositive := true, tolerance := 0, max_error_rate := 1 }
    rfl (by refine ⟨?_, ?_, ?_, ?_⟩ <;> intro h <;> simp at h ⊢)).1.1

/-- C4: when apply_validations succeeds, every input row lands in exactly
one of the two returned frames; both frames hold original rows of the
input frame unchanged (the rejected rows verbatim, by original row
identity), and no accepted row carries any transient check column. -/
theorem applyValidations_partition (cfg : ValConfig) (rows : List Rec) (acc rej : List WRow)
    (h : applyValidations cfg rows = Except.ok (acc, rej)) :
    (∀ w ∈ initFrame rows, (w ∈ acc ∧ w ∉ rej) ∨ (w ∈ rej ∧ w ∉ acc)) ∧
    (∀ w ∈ acc, w ∈ initFrame rows) ∧
    (∀ w ∈ rej, w ∈ initFrame rows) ∧
    (∀ w ∈ acc, w.chk_rev1 = none ∧ w.chk_rev2 = none ∧ w.chk_qty = none) := by
  have hforms : acc = (initFrame rows).filter (fun w => keepAll cfg w.row) ∧
      rej = (initFrame rows).filter
        (fun o => !(acc.map (fun w => w.idx)).contains o.idx) := by
    unfold applyValidations at h
    by_cases hdr : dropRate cfg rows > cfg.max_error_rate
    · rw [if_pos hdr] at h
      cases h
    · rw [if_neg hdr, Except.ok.injEq, Prod.mk.injEq] at h
      obtain ⟨h1, h2⟩ := h
      have hmap : (runChecks cfg (initFrame rows)).map stripChk =
          (initFrame rows).filter (fun w => keepAll cfg w.row) := by
        rw [runChecks_strip, stripChk_initFrame]
      constructor
      · rw [← h1, hmap]
      · rw [← h2, ← h1]
  obtain ⟨ha, hr⟩ := hforms
  have hinj : ∀ w ∈ initFrame rows, ∀ w2 ∈ initFrame rows, w.idx = w2.idx → w = w2 := by
    have hnd : ((initFrame rows).map (fun w => w.idx)).Nodup := by
      unfold initFrame
      rw [List.map_map]
      have hcomp : ((fun (w : WRow) => w.idx) ∘
          (fun p : Nat × Rec =>
            ({ idx := p.fst, row := p.snd, chk_rev1 := none, chk_rev2 := none,
               chk_qty := none } : WRow))) = Prod.fst := rfl
      rw [hcomp]
      exact List.nodup_enum_map_fst rows
    exact fun w hw w2 hw2 he => List.inj_on_of_nodup_map hnd hw hw2 he
  have hidx_mem : ∀ w ∈ initFrame rows,
      ((acc.map (fun w => w.idx)).contains w.idx = true ↔ w ∈ acc) := by
    intro w hw
    constructor
    · intro hc
      have hin : w.idx ∈ acc.map (fun w => w.idx) := List.elem_iff.mp hc
      obtain ⟨w2, hw2, he⟩ := List.mem_map.mp hin
      have hw2f : w2 ∈ initFrame rows := by
        rw [ha] at hw2
        exact (List.mem_filter.mp hw2).1
      rw [hinj w hw w2 hw2f he.symm]
      exact hw2
    · intro hmem
      exact List.elem_iff.mpr (List.mem_map_of_mem _ hmem)
  have hsub_acc : ∀ w ∈ acc, w ∈ initFrame rows := by
    intro w hw
    rw [ha] at hw
    exact (List.mem_filter.mp hw).1
  have hsub_rej : ∀ w ∈ rej, w ∈ initFrame rows := by
    intro w hw
    rw [hr] at hw
    exact (List.mem_filter.mp hw).1
  refine ⟨?_, hsub_acc, hsub_rej, ?_⟩
  · intro w hw
    by_cases hk : keepAll cfg w.row = true
    · have hwa : w ∈ acc := by
        rw [ha]
        exact List.mem_filter.mpr ⟨hw, hk⟩
      refine Or.inl ⟨hwa, ?_⟩
      intro hmem
      rw [hr] at hmem
      have hcond := (List.mem_filter.mp hmem).2
      rw [Bool.not_eq_true'] at hcond
      rw [(hidx_mem w hw).mpr hwa] at hcond
      cases hcond
    · have hwna : w ∉ acc := by
        intro hmem
        rw [ha] at hmem
        exact hk (List.mem_filter.mp hmem).2
      refine Or.inr ⟨?_, hwna⟩
      rw [hr]
      refine List.mem_filter.mpr ⟨hw, ?_⟩
      rw [Bool.not_eq_true']
      cases hc : (acc.map (fun w => w.idx)).contains w.idx
      · rfl
      · exact absurd ((hidx_mem w hw).mp hc) hwna
  · intro w hw
    exact initFrame_chk_none rows w (hsub_acc w hw)

/-- Witness for C4: on the all-disabled configuration and one zero row,
validation succeeds with the single accepted row and no rejected row, and
the accepted row carries no check column. -/
theorem applyValidations_partition_witness :
    ({ idx := 0,
       row := { transaction_id := none, full_date := none, item_code := [], buyer_id := none,
                total_revenue := 0, price_reductions := 0, refunds := 0, final_revenue := 0,
                sales_tax := 0, overall_revenue := 0, final_quantity := 0,
                purchased_item_count := 0, refunded_item_count := 0 },
       chk_rev1 := none, chk_rev2 := none, chk_qty := none } : WRow).chk_rev1 = none :=
  ((applyValidations_partition
    { revenue_balance := false, overall_balance := false, quantity_balance := false,
      refunded_nonpositive := false, tolerance := 0, max_error_rate := 1 }
    [{ transaction_id := none, full_date := none, item_code := [], buyer_id := none,
       total_revenue := 0, price_reductions := 0, refunds := 0, final_revenue := 0,
       sales_tax := 0, overall_revenue := 0, final_quantity := 0,
       purchased_item_count := 0, refunded_item_count := 0 }]
    [{ idx := 0,
       row := { transaction_id := none, full_date := none, item_code := [], buyer_id := none,
                total_revenue := 0, price_reductions := 0, refunds := 0, final_revenue := 0,
                sales_tax := 0, overall_revenue := 0, final_quantity := 0,
                purchased_item_count := 0, refunded_item_count := 0 },
       chk_rev1 := none, chk_rev2 := none, chk_qty := none }]
    [] (by
      unfold applyValidations
      rw [if_neg (by
        unfold dropRate
        rw [show droppedCount
          { revenue_balance := false, overall_balance := false, quantity_balance := false,
            refunded_nonpositive := false, tolerance := 0, max_error_rate := 1 }
          [{ transaction_id := none, full_date := none, item_code := [], buyer_id := none,
             total_revenue := 0, price_reductions := 0, refunds := 0, final_revenue := 0,
             sales_tax := 0, overall_revenue := 0, final_quantity := 0,
             purchased_item_count := 0, refunded_item_count := 0 }] = 0 from by decide]
        norm_num)]
      exact congrArg Except.ok (by decide))).2.2.2 _ (List.mem_singleton.mpr rfl)).1

theorem mem_dropDupAux {α : Type} [DecidableEq α] (l : List α) (seen : List α) (x : α)
    (hx : x ∈ dropDupAux seen l) : x ∈ l := by
  induction l generalizing seen with
  | nil => cases hx
  | cons y ys ih =>
      unfold dropDupAux at hx
      by_cases h : y ∈ seen
      · rw [if_pos h] at hx
        exact List.mem_cons.mpr (Or.inr (ih seen hx))
      · rw [if_neg h] at hx
        rcases List.mem_cons.mp hx with h1 | h1
        · exact List.mem_cons.mpr (Or.inl h1)
        · exact List.mem_cons.mpr (Or.inr (ih (y :: seen) h1))

theorem nodup_dropDupAux {α : Type} [DecidableEq α] (l : List α) (seen : List α) :
    (dropDupAux seen l).Nodup ∧ ∀ x ∈ dropDupAux seen l, x ∉ seen := by
  induction l generalizing seen with
  | nil => exact ⟨List.nodup_nil, by intro x hx; cases hx⟩
  | cons y ys ih =>
      unfold dropDupAux
      by_cases h : y ∈ seen
      · rw [if_pos h]
        exact ih seen
      · rw [if_neg h]
        obtain ⟨hnd, hnotin⟩ := ih (y :: seen)
        constructor
        · refine List.nodup_cons.mpr ⟨?_, hnd⟩
          intro hy
          exact hnotin y hy (List.mem_cons_self y seen)
        · intro x hx
          rcases List.mem_cons.mp hx with h1 | h1
          · rw [h1]
            exact h
          · intro hxs
            exact hnotin x h1 (List.mem_cons.mpr (Or.inr hxs))

theorem groupKeys_nodup (rows : List ItemRec) : (groupKeys rows).Nodup :=
  ((List.perm_insertionSort _ _).symm).nodup (List.nodup_dedup _)

theorem groupKeys_mem (rows : List ItemRec) (k : Str) :
    k ∈ groupKeys rows ↔ ∃ r ∈ rows, r.item_code = k := by
  unfold groupKeys
  rw [(List.perm_insertionSort _ _).mem_iff, List.mem_dedup, List.mem_map]

theorem loadDimItemMode_map_code (canonCat : Bool) (rows : List ItemRec) :
    (loadDimItemMode canonCat rows).1.map (fun r => r.item_code) =
      (groupKeys (canonCategoryCol canonCat rows)).filter
        (fun k => !(firstAgg (((canonCategoryCol canonCat rows).filter
          (fun r => r.item_code == k)).map (fun r => r.item_id))).isNone) := by
  unfold loadDimItemMode
  simp only
  rw [List.filter_map, List.map_map]
  have h1 : ((fun (r : ItemRec) => r.item_code) ∘
      (modeGroupRow (canonCategoryCol canonCat rows))) = id := rfl
  rw [h1, List.map_id]
  rfl

/-- C5 counterexample: under the first-occurrence strategy, two distinct
raw rows sharing item_code 65 (same item_id, different item_name) both
survive dropna and drop_duplicates, so the output is not unique on
item_code, against the claim that both strategies yield at most one row per
item_code. -/
theorem itemDim_unique_counterexample :
    ¬ ((loadDimItemFirst false
      [{ item_code := [65], item_id := some 1, item_name := some [120],
         category := none, version := none },
       { item_code := [65], item_id := some 1, item_name := some [121],
         category := none, version := none }]).map (fun r => r.item_code)).Nodup := by
  decide

/-- C5 amended: under the mode strategy the output is unique on item_code
and carries no absent item_id; under the first-occurrence strategy no
output row has an absent item_id and exact duplicate rows are removed (the
output rows are pairwise distinct), but two distinct rows sharing an
item_code may both remain. -/
theorem itemDim_key_integrity (canonCat : Bool) (rows : List ItemRec) :
    ((loadDimItemMode canonCat rows).1.map (fun r => r.item_code)).Nodup ∧
    (∀ r ∈ (loadDimItemMode canonCat rows).1, r.item_id ≠ none) ∧
    (∀ r ∈ loadDimItemFirst canonCat rows, r.item_id ≠ none) ∧
    (loadDimItemFirst canonCat rows).Nodup := by
  refine ⟨?_, ?_, ?_, ?_⟩
  · rw [loadDimItemMode_map_code]
    exact (groupKeys_nodup _).filter _
  · intro r hr
    unfold loadDimItemMode at hr
    simp only at hr
    have h := (List.mem_filter.mp hr).2
    rw [Bool.not_eq_true'] at h
    intro heq
    rw [heq] at h
    cases h
  · intro r hr
    unfold loadDimItemFirst at hr
    have hr2 := mem_dropDupAux _ _ _ hr
    have h := (List.mem_filter.mp hr2).2
    rw [Bool.not_eq_true'] at h
    intro heq
    rw [heq] at h
    cases h
  · exact (nodup_dropDupAux _ _).1

/-- Witness for C5 at a concrete two-row group resolving item_id 5: the
resolved output row has a present item_id. -/
theorem itemDim_key_integrity_witness :
    ({ item_code := [65], item_id := some 5, item_name := some [97],
       category := none, version := none } : ItemRec).item_id ≠ none :=
  (itemDim_key_integrity false
    [{ item_code := [65], item_id := none, item_name := some [97],
       category := none, version := none },
     { item_code := [65], item_id := some 5, item_name := some [97],
       category := none, version := none }]).2.1 _ (by decide)

theorem lexLt_irrefl (a : Str) : lexLt a a = false := by
  induction a with
  | nil => rfl
  | cons x xs ih =>
      unfold lexLt
      rw [if_neg (lt_irrefl x), if_neg (lt_irrefl x)]
      exact ih

theorem lexLt_trans (a b c : Str) (h1 : lexLt a b = true) (h2 : lexLt b c = true) :
    lexLt a c = true := by
  induction a generalizing b c with
  | nil =>
      cases b with
      | nil => cases h1
      | cons y ys =>
          cases c with
          | nil => cases h2
          | cons z zs => rfl
  | cons x xs ih =>
      cases b with
      | nil => cases h1
      | cons y ys =>
          cases c with
          | nil => cases h2
          | cons z zs =>
              unfold lexLt at h1 h2 ⊢
              by_cases hxy : x < y
              · by_cases hyz : y < z
                · rw [if_pos (lt_trans hxy hyz)]
                · rw [if_neg hyz] at h2
                  by_cases hzy : z < y
                  · rw [if_pos hzy] at h2
                    cases h2
                  · rw [if_pos (by omega : x < z)]
              · rw [if_neg hxy] at h1
                by_cases hyx : y < x
                · rw [if_pos hyx] at h1
                  cases h1
                · rw [if_neg hyx] at h1
                  by_cases hyz : y < z
                  · rw [if_pos (by omega : x < z)]
                  · rw [if_neg hyz] at h2
                    by_cases hzy : z < y
                    · rw [if_pos hzy] at h2
                      cases h2
                    · rw [if_neg hzy] at h2
                      rw [if_neg (by omega : ¬ x < z), if_neg (by omega : ¬ z < x)]
                      exact ih ys zs h1 h2

theorem lexLt_connex (a b : Str) : lexLt a b = true ∨ lexLt b a = true ∨ a = b := by
  induction a generalizing b with
  | nil =>
      cases b with
      | nil => exact Or.inr (Or.inr rfl)
      | cons y ys => exact Or.inl rfl
  | cons x xs ih =>
      cases b with
      | nil => exact Or.inr (Or.inl rfl)
      | cons y ys =>
          by_cases hxy : x < y
          · refine Or.inl ?_
            unfold lexLt
            rw [if_pos hxy]
          · by_cases hyx : y < x
            · refine Or.inr (Or.inl ?_)
              unfold lexLt
              rw [if_pos hyx]
            · have hxy_eq : x = y := by omega
              subst hxy_eq
              rcases ih ys with h | h | h
              · refine Or.inl ?_
                unfold lexLt
                rw [if_neg (lt_irrefl x), if_neg (lt_irrefl x)]
                exact h
              · refine Or.inr (Or.inl ?_)
                unfold lexLt
                rw [if_neg (lt_irrefl x), if_neg (lt_irrefl x)]
                exact h
              · exact Or.inr (Or.inr (by rw [h]))

theorem foldMin_spec (ts : List Str) (t : Str) :
    (ts.foldl (fun m v => if lexLt v m then v else m) t) ∈ t :: ts ∧
    ∀ w ∈ t :: ts, lexLt w (ts.foldl (fun m v => if lexLt v m then v else m) t) = false := by
  induction ts generalizing t with
  | nil =>
      constructor
      · exact List.mem_singleton.mpr rfl
      · intro w hw
        rw [List.mem_singleton.mp hw]
        exact lexLt_irrefl t
  | cons x xs ih =>
      simp only [List.foldl_cons]
      obtain ⟨ihm, ihmin⟩ := ih (if lexLt x t then x else t)
      constructor
      · rcases List.mem_cons.mp ihm with h | h
        · rw [h]
          by_cases hxt : lexLt x t = true
          · rw [if_pos hxt]
            exact List.mem_cons.mpr (Or.inr (List.mem_cons_self x xs))
          · rw [if_neg hxt]
            exact List.mem_cons_self t (x :: xs)
        · exact List.mem_cons.mpr (Or.inr (List.mem_cons.mpr (Or.inr h)))
      · have hm := ihmin (if lexLt x t then x else t) (List.mem_cons_self _ _)
        intro w hw
        rcases List.mem_cons.mp hw with rfl | hw2
        · by_cases hxt : lexLt x w = true
          · rw [if_pos hxt] at hm
            cases hlf : lexLt w (xs.foldl (fun m v => if lexLt v m then v else m) (if lexLt x w then x else w)) with
            | false => rfl
            | true =>
                exfalso
                have htr := lexLt_trans x w _ hxt hlf
                rw [if_pos hxt] at htr
                rw [htr] at hm
                cases hm
          · rw [if_neg hxt] at hm
            rw [if_neg hxt]
            exact hm
        · rcases List.mem_cons.mp hw2 with rfl | hw3
          · by_cases hxt : lexLt w t = true
            · rw [if_pos hxt] at hm ⊢
              exact hm
            · rw [if_neg hxt] at hm ⊢
              rcases lexLt_connex w t with h | h | h
              · exact absurd h hxt
              · cases hlf : lexLt w (xs.foldl (fun m v => if lexLt v m then v else m) t) with
                | false => rfl
                | true =>
                    exfalso
                    have htr := lexLt_trans t w _ h hlf
                    rw [htr] at hm
                    cases hm
              · rw [h]
                exact hm
          · exact ihmin w (List.mem_cons.mpr (Or.inr hw3))

theorem firstAgg_eq_none_iff (ids : List (Option Nat)) :
    firstAgg ids = none ↔ ∀ x ∈ ids, x = none := by
  unfold firstAgg
  rw [List.head?_eq_none_iff, List.filterMap_eq_nil]
  simp

theorem filter_length_compl {α : Type} (p : α → Bool) (l : List α) :
    l.length - (l.filter p).length = (l.filter (fun a => !p a)).length := by
  induction l with
  | nil => rfl
  | cons x xs ih =>
      have hle := List.length_filter_le p xs
      cases hp : p x <;> simp [List.filter_cons, hp] <;> omega

theorem modeAgg_spec (vals : List (Option Str)) (hne : vals.filterMap id ≠ []) :
    ∃ v, modeAgg vals = some v ∧ v ∈ vals.filterMap id ∧
      (∀ w ∈ vals.filterMap id, (vals.filterMap id).count w ≤ (vals.filterMap id).count v) ∧
      (∀ w ∈ vals.filterMap id, (vals.filterMap id).count w = (vals.filterMap id).count v →
        lexLt w v = false) := by
  have huniq_ne : (vals.filterMap id).dedup ≠ [] := by
    rw [Ne, List.dedup_eq_nil]
    exact hne
  obtain ⟨u0, hu0⟩ := List.exists_mem_of_ne_nil _ huniq_ne
  have hcnt_le : ∀ w ∈ (vals.filterMap id).dedup, (vals.filterMap id).count w ≤
      ((vals.filterMap id).dedup.map (fun v => (vals.filterMap id).count v)).foldl Nat.max 0 := by
    intro w hw
    exact le_foldlMax_of_mem _ _ _ (List.mem_map_of_mem _ hw)
  have hu0_pos : 0 < (vals.filterMap id).count u0 :=
    List.count_pos_iff.mpr (List.mem_dedup.mp hu0)
  have hmax_pos : 0 <
      ((vals.filterMap id).dedup.map (fun v => (vals.filterMap id).count v)).foldl Nat.max 0 :=
    lt_of_lt_of_le hu0_pos (hcnt_le u0 hu0)
  have hmax_mem :
      ((vals.filterMap id).dedup.map (fun v => (vals.filterMap id).count v)).foldl Nat.max 0 ∈
      (vals.filterMap id).dedup.map (fun v => (vals.filterMap id).count v) := by
    rcases List.mem_cons.mp
      (foldlMax_mem_cons ((vals.filterMap id).dedup.map (fun v => (vals.filterMap id).count v)) 0)
      with h | h
    · exact absurd h (by omega)
    · exact h
  obtain ⟨u, hu_mem, hu_cnt⟩ := List.mem_map.mp hmax_mem
  have htied_mem : u ∈ (vals.filterMap id).dedup.filter (fun v => (vals.filterMap id).count v ==
      ((vals.filterMap id).dedup.map (fun v => (vals.filterMap id).count v)).foldl Nat.max 0) :=
    List.mem_filter.mpr ⟨hu_mem, beq_iff_eq.mpr hu_cnt⟩
  cases htied : (vals.filterMap id).dedup.filter (fun v => (vals.filterMap id).count v ==
      ((vals.filterMap id).dedup.map (fun v => (vals.filterMap id).count v)).foldl Nat.max 0) with
  | nil =>
      rw [htied] at htied_mem
      cases htied_mem
  | cons t ts =>
      obtain ⟨hmem, hmin⟩ := foldMin_spec ts t
      have hf_tied : (ts.foldl (fun m v => if lexLt v m then v else m) t) ∈
          (vals.filterMap id).dedup.filter (fun v => (vals.filterMap id).count v ==
            ((vals.filterMap id).dedup.map (fun v => (vals.filterMap id).count v)).foldl Nat.max 0) := by
        rw [htied]
        exact hmem
      have hf_uniq := (List.mem_filter.mp hf_tied).1
      have hf_cnt := beq_iff_eq.mp (List.mem_filter.mp hf_tied).2
      refine ⟨ts.foldl (fun m v => if lexLt v m then v else m) t, ?_, ?_, ?_, ?_⟩
      · unfold modeAgg
        simp only
        rw [htied]
      · exact List.mem_dedup.mp hf_uniq
      · intro w hw
        have h1 := hcnt_le w (List.mem_dedup.mpr hw)
        rw [hf_cnt]
        exact h1
      · intro w hw hcnt_eq
        have hwc : (vals.filterMap id).count w =
            ((vals.filterMap id).dedup.map (fun v => (vals.filterMap id).count v)).foldl Nat.max 0 := by
          rw [hcnt_eq, hf_cnt]
        have hw_tied : w ∈ (vals.filterMap id).dedup.filter
            (fun v => (vals.filterMap id).count v ==
              ((vals.filterMap id).dedup.map (fun v => (vals.filterMap id).count v)).foldl Nat.max 0) :=
          List.mem_filter.mpr ⟨List.mem_dedup.mpr hw, beq_iff_eq.mpr hwc⟩
        rw [htied] at hw_tied
        exact hmin w hw_tied

/-- C3 counterexample: on a one-to-one tie between item_name values [98]
and [97] (row order [98] first), the source resolves the name to [97], the
smaller value in sort order, while the claimed first-encountered tie-break
yields [98]; and on a group whose first row has an absent item_id resolved
by a later row, the source keeps the group with item_id 5 while the claimed
first-row rule drops it. -/
theorem loadDimItemMode_counterexample :
    ((loadDimItemMode false exTie).1.map (fun r => r.item_name) = [some [97]] ∧
     (loadDimItemModeClaimed false exTie).1.map (fun r => r.item_name) = [some [98]]) ∧
    ((loadDimItemMode false exNull).1.map (fun r => r.item_id) = [some 5] ∧
     (loadDimItemModeClaimed false exNull).1 = [] ∧
     (loadDimItemModeClaimed false exNull).2 = 1 ∧
     (loadDimItemMode false exNull).2 = 0) := by
  decide

/-- C3 amended: under the mode strategy, the output has one row per
item_code group holding a non-absent item_id; each output row carries, per
attribute, the most frequent non-absent value of its group with ties broken
by the smallest value in sort order (not by first encountered); item_id is
the first non-absent item_id of the group (not the first row of the group),
so a group is dropped exactly when every item_id in it is absent, and the
dropped-group count is reported. -/
theorem loadDimItemMode_amended (canonCat : Bool) (rows : List ItemRec) :
    (∀ k, k ∈ (loadDimItemMode canonCat rows).1.map (fun r => r.item_code) ↔
      ∃ r ∈ canonCategoryCol canonCat rows, r.item_code = k ∧ r.item_id ≠ none) ∧
    (∀ orow ∈ (loadDimItemMode canonCat rows).1,
      orow = modeGroupRow (canonCategoryCol canonCat rows) orow.item_code) ∧
    (∀ vals : List (Option Str), vals.filterMap id ≠ [] →
      ∃ v, modeAgg vals = some v ∧ v ∈ vals.filterMap id ∧
        (∀ w ∈ vals.filterMap id, (vals.filterMap id).count w ≤ (vals.filterMap id).count v) ∧
        (∀ w ∈ vals.filterMap id, (vals.filterMap id).count w = (vals.filterMap id).count v →
          lexLt w v = false)) ∧
    (∀ ids : List (Option Nat), firstAgg ids = (ids.filterMap id).head? ∧
      (firstAgg ids = none ↔ ∀ x ∈ ids, x = none)) ∧
    ((loadDimItemMode canonCat rows).2 = ((groupKeys (canonCategoryCol canonCat rows)).filter
      (fun k => (firstAgg (((canonCategoryCol canonCat rows).filter
        (fun r => r.item_code == k)).map (fun r => r.item_id))).isNone)).length) := by
  refine ⟨?_, ?_, modeAgg_spec, fun ids => ⟨rfl, firstAgg_eq_none_iff ids⟩, ?_⟩
  · intro k
    rw [loadDimItemMode_map_code, List.mem_filter, groupKeys_mem]
    constructor
    · rintro ⟨⟨r0, hr0, hcode0⟩, hq⟩
      rw [Bool.not_eq_true'] at hq
      have hfa : firstAgg (((canonCategoryCol canonCat rows).filter
          (fun r => r.item_code == k)).map (fun r => r.item_id)) ≠ none := by
        intro heq
        rw [heq] at hq
        cases hq
      rw [Ne, firstAgg_eq_none_iff] at hfa
      push_neg at hfa
      obtain ⟨x, hx_mem, hx_ne⟩ := hfa
      obtain ⟨r, hr_grp, hx_eq⟩ := List.mem_map.mp hx_mem
      have hr_df := (List.mem_filter.mp hr_grp).1
      have hr_code := beq_iff_eq.mp (List.mem_filter.mp hr_grp).2
      refine ⟨r, hr_df, hr_code, ?_⟩
      rw [hx_eq]
      exact hx_ne
    · rintro ⟨r, hr, hcode, hid⟩
      refine ⟨⟨r, hr, hcode⟩, ?_⟩
      rw [Bool.not_eq_true']
      cases hiso : (firstAgg (((canonCategoryCol canonCat rows).filter
          (fun r => r.item_code == k)).map (fun r => r.item_id))).isNone
      · rfl
      · exfalso
        have h0 := Option.isNone_iff_eq_none.mp hiso
        rw [firstAgg_eq_none_iff] at h0
        exact hid (h0 r.item_id (List.mem_map_of_mem _
          (List.mem_filter.mpr ⟨hr, beq_iff_eq.mpr hcode⟩)))
  · intro orow hor
    unfold loadDimItemMode at hor
    simp only at hor
    have h1 := (List.mem_filter.mp hor).1
    obtain ⟨k, hk, hmk⟩ := List.mem_map.mp h1
    rw [← hmk]
    rfl
  · unfold loadDimItemMode
    simp only
    rw [List.filter_map, List.length_map, List.length_map, filter_length_compl]
    refine congrArg List.length (List.filter_congr ?_)
    intro k _
    simp [Function.comp, Bool.not_not, modeGroupRow]

/-- Witness for C3 on the one-element column holding the value [97]: the
mode resolves to [97], which occurs, has maximal multiplicity, and is
minimal among the tied values. -/
theorem loadDimItemMode_amended_witness :
    ∃ v, modeAgg [some [97]] = some v ∧
      v ∈ ([some [97]] : List (Option Str)).filterMap id ∧
      (∀ w ∈ ([some [97]] : List (Option Str)).filterMap id,
        (([some [97]] : List (Option Str)).filterMap id).count w ≤
          (([some [97]] : List (Option Str)).filterMap id).count v) ∧
      (∀ w ∈ ([some [97]] : List (Option Str)).filterMap id,
        (([some [97]] : List (Option Str)).filterMap id).count w =
          (([some [97]] : List (Option Str)).filterMap id).count v →
        lexLt w v = false) :=
  (loadDimItemMode_amended false []).2.2.1 [some [97]] (by decide)

theorem isWS_iff (c : Nat) : isWS c = true ↔
    (c = 32 ∨ c = 9 ∨ c = 10 ∨ c = 11 ∨ c = 12 ∨ c = 13) := by
  unfold isWS
  simp only [Bool.or_eq_true, beq_iff_eq]
  omega

theorem isAlphaC_iff (c : Nat) : isAlphaC c = true ↔
    ((65 ≤ c ∧ c ≤ 90) ∨ (97 ≤ c ∧ c ≤ 122)) := by
  unfold isAlphaC
  simp [Bool.or_eq_true, Bool.and_eq_true, decide_eq_true_eq]

theorem isWS_of_alpha_false (c : Nat) (h : isAlphaC c = true) : isWS c = false := by
  rw [isAlphaC_iff] at h
  cases hw : isWS c
  · rfl
  · exfalso
    have hw2 := (isWS_iff c).mp hw
    omega

theorem upChar_alpha (c : Nat) (h : isAlphaC c = true) : isAlphaC (upChar c) = true := by
  rw [isAlphaC_iff] at h ⊢
  unfold upChar
  split_ifs with h2 <;> omega

theorem lowChar_alpha (c : Nat) (h : isAlphaC c = true) : isAlphaC (lowChar c) = true := by
  rw [isAlphaC_iff] at h ⊢
  unfold lowChar
  split_ifs with h2 <;> omega

theorem upChar_upChar (c : Nat) : upChar (upChar c) = upChar c := by
  unfold upChar
  split_ifs with h1 h2 <;> omega

theorem lowChar_lowChar (c : Nat) : lowChar (lowChar c) = lowChar c := by
  unfold lowChar
  split_ifs with h1 h2 <;> omega

theorem caseTr_isAlphaC (a : Bool) (c : Nat) : isAlphaC (caseTr a c) = isAlphaC c := by
  unfold caseTr
  by_cases h : isAlphaC c = true
  · rw [if_pos h]
    cases a
    · rw [if_neg Bool.false_ne_true, upChar_alpha c h, h]
    · rw [if_pos rfl, lowChar_alpha c h, h]
  · rw [if_neg h]

theorem caseTr_isWS (a : Bool) (c : Nat) : isWS (caseTr a c) = isWS c := by
  unfold caseTr
  by_cases h : isAlphaC c = true
  · rw [if_pos h]
    rw [isWS_of_alpha_false c h]
    cases a
    · rw [if_neg Bool.false_ne_true]
      exact isWS_of_alpha_false _ (upChar_alpha c h)
    · rw [if_pos rfl]
      exact isWS_of_alpha_false _ (lowChar_alpha c h)
  · rw [if_neg h]

theorem caseTr_ws_eq (a : Bool) (c : Nat) (h : isWS c = true) : caseTr a c = c := by
  unfold caseTr
  have hna : ¬ isAlphaC c = true := by
    intro ha
    rw [isWS_of_alpha_false c ha] at h
    cases h
  rw [if_neg hna]

theorem caseTr_caseTr (a : Bool) (c : Nat) : caseTr a (caseTr a c) = caseTr a c := by
  by_cases h : isAlphaC c = true
  · cases a
    · have h1 : caseTr false c = upChar c := by
        unfold caseTr
        rw [if_pos h, if_neg Bool.false_ne_true]
      have h2 : caseTr false (upChar c) = upChar (upChar c) := by
        unfold caseTr
        rw [if_pos (upChar_alpha c h), if_neg Bool.false_ne_true]
      rw [h1, h2, upChar_upChar]
    · have h1 : caseTr true c = lowChar c := by
        unfold caseTr
        rw [if_pos h, if_pos rfl]
      have h2 : caseTr true (lowChar c) = lowChar (lowChar c) := by
        unfold caseTr
        rw [if_pos (lowChar_alpha c h), if_pos rfl]
      rw [h1, h2, lowChar_lowChar]
  · have h1 : caseTr a c = c := by
      unfold caseTr
      rw [if_neg h]
    rw [h1, h1]

theorem titleAux_cons (a : Bool) (c : Nat) (cs : Str) :
    titleAux a (c :: cs) = caseTr a c :: titleAux (isAlphaC c) cs := rfl

theorem titleAux_titleAux (a : Bool) (l : Str) : titleAux a (titleAux a l) = titleAux a l := by
  induction l generalizing a with
  | nil => rfl
  | cons c cs ih =>
      rw [titleAux_cons, titleAux_cons, caseTr_caseTr, caseTr_isAlphaC, ih]

theorem collapseAux_cons_ws_false (c : Nat) (cs : Str) (h : isWS c = true) :
    collapseAux false (c :: cs) = 32 :: collapseAux true cs := by
  simp only [collapseAux]
  rw [if_pos h, if_neg Bool.false_ne_true]

theorem collapseAux_cons_ws_true (c : Nat) (cs : Str) (h : isWS c = true) :
    collapseAux true (c :: cs) = collapseAux true cs := by
  simp only [collapseAux]
  rw [if_pos h]
  exact if_pos trivial

theorem collapseAux_cons_not_ws (b : Bool) (c : Nat) (cs : Str) (h : isWS c = false) :
    collapseAux b (c :: cs) = c :: collapseAux false cs := by
  simp only [collapseAux]
  rw [if_neg (by rw [h]; exact Bool.false_ne_true)]

theorem collapseAux_collapseAux (b : Bool) (l : Str) :
    collapseAux b (collapseAux b l) = collapseAux b l := by
  induction l generalizing b with
  | nil => rfl
  | cons c cs ih =>
      by_cases hc : isWS c = true
      · cases b
        · rw [collapseAux_cons_ws_false c cs hc,
            collapseAux_cons_ws_false 32 (collapseAux true cs) rfl,
            ih]
        · rw [collapseAux_cons_ws_true c cs hc]
          exact ih true
      · have hc2 : isWS c = false := by
          cases hcc : isWS c
          · rfl
          · exact absurd hcc hc
        rw [collapseAux_cons_not_ws b c cs hc2,
          collapseAux_cons_not_ws b c (collapseAux false cs) hc2,
          ih]

theorem titleAux_cons_32 (a : Bool) (X : Str) : titleAux a (32 :: X) = 32 :: titleAux false X := by
  rw [titleAux_cons, caseTr_ws_eq a 32 rfl]
  rfl

theorem collapseAux_titleAux (l : Str) : ∀ (a b : Bool), (b = true → a = false) →
    collapseAux b (titleAux a l) = titleAux a (collapseAux b l) := by
  induction l with
  | nil => intro a b _; rfl
  | cons c cs ih =>
      intro a b hab
      by_cases hc : isWS c = true
      · have hca : isAlphaC c = false := by
          cases hA : isAlphaC c
          · rfl
          · rw [isWS_of_alpha_false c hA] at hc
            cases hc
        have htitle : titleAux a (c :: cs) = c :: titleAux false cs := by
          rw [titleAux_cons, caseTr_ws_eq a c hc, hca]
        cases b
        · rw [htitle, collapseAux_cons_ws_false c _ hc, collapseAux_cons_ws_false c _ hc,
            titleAux_cons_32, ih false true (fun _ => rfl)]
        · have ha := hab rfl
          subst ha
          rw [htitle, collapseAux_cons_ws_true c _ hc, collapseAux_cons_ws_true c _ hc,
            ih false true (fun _ => rfl)]
      · have hc2 : isWS c = false := by
          cases hcc : isWS c
          · rfl
          · exact absurd hcc hc
        have hc3 : isWS (caseTr a c) = false := by
          rw [caseTr_isWS]
          exact hc2
        rw [titleAux_cons, collapseAux_cons_not_ws b _ _ hc3,
          collapseAux_cons_not_ws b c cs hc2, titleAux_cons,
          ih (isAlphaC c) false (fun h => absurd h Bool.false_ne_true)]

theorem head_dropWhile_not_ws (l : Str) :
    ∀ c, (l.dropWhile (fun c => isWS c)).head? = some c → isWS c = false := by
  induction l with
  | nil => intro c h; cases h
  | cons x xs ih =>
      intro c h
      rw [List.dropWhile_cons] at h
      by_cases hx : isWS x = true
      · rw [if_pos hx] at h
        exact ih c h
      · rw [if_neg hx] at h
        rw [List.head?_cons] at h
        injection h with h
        rw [← h]
        cases hxx : isWS x
        · rfl
        · exact absurd hxx hx

theorem stripWS_of_ok (l : Str)
    (hhead : ∀ c, l.head? = some c → isWS c = false)
    (hlast : ∀ c, l.getLast? = some c → isWS c = false) :
    stripWS l = l := by
  unfold stripWS trimLeft
  have h1 : l.dropWhile (fun c => isWS c) = l := by
    cases l with
    | nil => rfl
    | cons x xs =>
        rw [List.dropWhile_cons,
          if_neg (by rw [hhead x (List.head?_cons)]; exact Bool.false_ne_true)]
  rw [h1]
  have h2 : l.reverse.dropWhile (fun c => isWS c) = l.reverse := by
    cases hr : l.reverse with
    | nil => rfl
    | cons x xs =>
        have hx : l.getLast? = some x := by
          rw [← List.head?_reverse, hr]
          exact List.head?_cons
        rw [List.dropWhile_cons,
          if_neg (by rw [hlast x hx]; exact Bool.false_ne_true)]
  rw [h2, List.reverse_reverse]

theorem stripWS_head_ok (s : Str) : ∀ c, (stripWS s).head? = some c → isWS c = false := by
  intro c h
  obtain ⟨u, hu⟩ := List.dropWhile_suffix (l := (trimLeft s).reverse) (fun c => isWS c)
  have ht : trimLeft s =
      ((trimLeft s).reverse.dropWhile (fun c => isWS c)).reverse ++ u.reverse := by
    have := congrArg List.reverse hu
    rw [List.reverse_append, List.reverse_reverse] at this
    exact this.symm
  unfold stripWS at h
  cases hd : ((trimLeft s).reverse.dropWhile (fun c => isWS c)).reverse with
  | nil =>
      rw [hd] at h
      cases h
  | cons w ws =>
      rw [hd, List.head?_cons] at h
      injection h with h
      have ht2 : (trimLeft s).head? = some w := by
        rw [ht, hd]
        rfl
      rw [← h]
      exact head_dropWhile_not_ws s w ht2

theorem stripWS_last_ok (s : Str) : ∀ c, (stripWS s).getLast? = some c → isWS c = false := by
  intro c h
  unfold stripWS at h
  rw [List.getLast?_reverse] at h
  exact head_dropWhile_not_ws ((trimLeft s).reverse) c h

theorem collapseAux_head_ok (l : Str)
    (hhead : ∀ c, l.head? = some c → isWS c = false) :
    ∀ c, (collapseAux false l).head? = some c → isWS c = false := by
  cases l with
  | nil => intro c h; cases h
  | cons x xs =>
      intro c h
      have hx : isWS x = false := hhead x List.head?_cons
      rw [collapseAux_cons_not_ws false x xs hx, List.head?_cons] at h
      injection h with h
      rw [← h]
      exact hx

theorem collapseAux_ne_nil (l : Str) : ∀ (b : Bool) (x : Nat), x ∈ l → isWS x = false →
    collapseAux b l ≠ [] := by
  induction l with
  | nil => intro b x hx _; cases hx
  | cons y ys ih =>
      intro b x hx hxw
      by_cases hy : isWS y = true
      · have hxy : x ∈ ys := by
          rcases List.mem_cons.mp hx with rfl | h
          · rw [hy] at hxw
            cases hxw
          · exact h
        cases b
        · rw [collapseAux_cons_ws_false y ys hy]
          intro hcon
          cases hcon
        · rw [collapseAux_cons_ws_true y ys hy]
          exact ih true x hxy hxw
      · have hy2 : isWS y = false := by
          cases hyy : isWS y
          · rfl
          · exact absurd hyy hy
        rw [collapseAux_cons_not_ws b y ys hy2]
        intro hcon
        cases hcon

theorem collapseAux_last_ok (l : Str) : ∀ (b : Bool),
    (∀ c, l.getLast? = some c → isWS c = false) →
    ∀ c, (collapseAux b l).getLast? = some c → isWS c = false := by
  induction l with
  | nil => intro b _ c h; cases h
  | cons y ys ih =>
      intro b hlast c h
      cases ys with
      | nil =>
          have hy := hlast y (List.getLast?_singleton y)
          rw [collapseAux_cons_not_ws b y [] hy] at h
          rw [show collapseAux false ([] : Str) = [] from rfl] at h
          rw [List.getLast?_singleton] at h
          injection h with h
          rw [← h]
          exact hy
      | cons z zs =>
          have hlast2 : ∀ c, (z :: zs).getLast? = some c → isWS c = false := by
            intro c hc
            refine hlast c ?_
            rw [List.getLast?_cons_cons]
            exact hc
          obtain ⟨c0, hg⟩ : ∃ c0, (z :: zs).getLast? = some c0 := by
            cases hg : (z :: zs).getLast? with
            | none =>
                rw [List.getLast?_eq_none_iff] at hg
                cases hg
            | some c0 => exact ⟨c0, rfl⟩
          have hc0 := hlast2 c0 hg
          have hc0mem : c0 ∈ z :: zs := List.mem_of_mem_getLast? hg
          by_cases hy : isWS y = true
          · cases b
            · rw [collapseAux_cons_ws_false y _ hy] at h
              cases hX : collapseAux true (z :: zs) with
              | nil => exact absurd hX (collapseAux_ne_nil (z :: zs) true c0 hc0mem hc0)
              | cons w ws =>
                  rw [hX, List.getLast?_cons_cons] at h
                  refine ih true hlast2 c ?_
                  rw [hX]
                  exact h
            · rw [collapseAux_cons_ws_true y _ hy] at h
              exact ih true hlast2 c h
          · have hy2 : isWS y = false := by
              cases hyy : isWS y
              · rfl
              · exact absurd hyy hy
            rw [collapseAux_cons_not_ws b y _ hy2] at h
            cases hX : collapseAux false (z :: zs) with
            | nil =>
                rw [hX, List.getLast?_singleton] at h
                injection h with h
                rw [← h]
                exact hy2
            | cons w ws =>
                rw [hX, List.getLast?_cons_cons] at h
                refine ih false hlast2 c ?_
                rw [hX]
                exact h

theorem titleAux_head_ok (a : Bool) (l : Str)
    (hhead : ∀ c, l.head? = some c → isWS c = false) :
    ∀ c, (titleAux a l).head? = some c → isWS c = false := by
  cases l with
  | nil => intro c h; cases h
  | cons x xs =>
      intro c h
      rw [titleAux_cons, List.head?_cons] at h
      injection h with h
      rw [← h, caseTr_isWS]
      exact hhead x List.head?_cons

theorem titleAux_last_ok (l : Str) : ∀ (a : Bool),
    (∀ c, l.getLast? = some c → isWS c = false) →
    ∀ c, (titleAux a l).getLast? = some c → isWS c = false := by
  induction l with
  | nil => intro a _ c h; cases h
  | cons x xs ih =>
      intro a hlast c h
      cases xs with
      | nil =>
          rw [titleAux_cons] at h
          rw [show titleAux (isAlphaC x) [] = [] from rfl, List.getLast?_singleton] at h
          injection h with h
          rw [← h, caseTr_isWS]
          exact hlast x (List.getLast?_singleton x)
      | cons z zs =>
          have hlast2 : ∀ c, (z :: zs).getLast? = some c → isWS c = false := by
            intro c hc
            refine hlast c ?_
            rw [List.getLast?_cons_cons]
            exact hc
          rw [titleAux_cons] at h
          cases hX : titleAux (isAlphaC x) (z :: zs) with
          | nil =>
              rw [titleAux_cons] at hX
              cases hX
          | cons w ws =>
              rw [hX, List.getLast?_cons_cons] at h
              refine ih (isAlphaC x) hlast2 c ?_
              rw [hX]
              exact h

/-- C8: the canonicalization applied to an enabled attribute (strip,
collapse whitespace runs to single spaces, then title-case) is idempotent:
applying it twice yields the same string as applying it once. -/
theorem canon_idem (s : Str) : canon (canon s) = canon s := by
  have hz_head : ∀ c, (collapseWS (stripWS s)).head? = some c → isWS c = false :=
    collapseAux_head_ok (stripWS s) (stripWS_head_ok s)
  have hz_last : ∀ c, (collapseWS (stripWS s)).getLast? = some c → isWS c = false :=
    collapseAux_last_ok (stripWS s) false (stripWS_last_ok s)
  have hy_head : ∀ c, (canon s).head? = some c → isWS c = false :=
    titleAux_head_ok false _ hz_head
  have hy_last : ∀ c, (canon s).getLast? = some c → isWS c = false :=
    titleAux_last_ok _ false hz_last
  have hstrip : stripWS (canon s) = canon s := stripWS_of_ok _ hy_head hy_last
  have hcol : collapseWS (canon s) = canon s := by
    show collapseAux false (titleAux false (collapseAux false (stripWS s))) =
      titleAux false (collapseAux false (stripWS s))
    rw [collapseAux_titleAux (collapseAux false (stripWS s)) false false
      (fun h => absurd h Bool.false_ne_true)]
    rw [collapseAux_collapseAux]
  calc canon (canon s) = titleCase (collapseWS (stripWS (canon s))) := rfl
    _ = titleCase (canon s) := by rw [hstrip, hcol]
    _ = canon s := titleAux_titleAux false (collapseWS (stripWS s))

end ETL
